import Mathlib

/-!
Verification of the value types in `src/graphics/types.rs`: the `Rect`
geometry predicates and the `Color` / `LinearColor` conversion pipeline.

IEEE-754 binary32 (`f32`) arithmetic is modelled exactly over `ℚ`: the
function `fl32` rounds a rational to the nearest `f32` value (round to
nearest, ties to even, 24-bit significand, gradual underflow below
`2 ^ (-126)`).  Overflow to infinity and NaN inputs are outside the model;
every value occurring in the claims stays far below the `f32` maximum.
Each `f32` operation of the source is embedded as the exact rational
operation followed by one application of `fl32`.

Rational arithmetic is written with the kernel-computable forms `mkRat`,
`Rat.num`, `Rat.den` (`ratAdd`, `ratMul`, `ratDiv` below) so that concrete
instances can be settled by `decide`; the bridge lemmas `ratAdd_eq`,
`ratMul_eq`, `ratDiv_eq` prove these are exactly `ℚ`'s `+`, `*`, `/`.

`f32::powf`, whose accuracy the Rust runtime does not specify, is passed in
as an uninterpreted function `ℚ → ℚ → ℚ` wherever the source calls it.
-/

/-- Fuel-driven floor of the base-2 logarithm of a natural number. -/
def nlog2 : ℕ → ℕ → ℕ
  | 0, _ => 0
  | fuel + 1, n => if n < 2 then 0 else nlog2 fuel (n / 2) + 1

/-- Floor of the base-2 logarithm of the positive rational `|n| / d`
(`n ≠ 0`, `d > 0`).  The candidate exponent from the numerator and
denominator logarithms is off by at most one and is corrected by a
comparison.  300 units of fuel cover the whole `f32` range with room to
spare. -/
def ratLog2 (n : ℤ) (d : ℕ) : ℤ :=
  let e0 : ℤ := (nlog2 300 n.natAbs : ℤ) - (nlog2 300 d : ℤ)
  let ge : Bool :=
    if 0 ≤ e0 then decide (d * 2 ^ e0.toNat ≤ n.natAbs)
    else decide (d ≤ n.natAbs * 2 ^ (-e0).toNat)
  if ge then e0 else e0 - 1

/-- Round the rational `n / d` (`d > 0`) to the nearest integer, ties to
even.  `Int.ediv` is floor division for a positive divisor, so `r` is the
nonnegative remainder and the fraction `r / d` is compared with `1 / 2`. -/
def roundHE (n : ℤ) (d : ℕ) : ℤ :=
  let f := Int.ediv n d
  let r := n - f * d
  if 2 * r < (d : ℤ) then f
  else if (d : ℤ) < 2 * r then f + 1
  else if f % 2 = 0 then f else f + 1

/-- Round a rational to the nearest IEEE-754 binary32 value: round to
nearest, ties to even, 24-bit significand, minimum (normal) exponent
`-126` giving gradual underflow.  Overflow is not modelled. -/
def fl32 (q : ℚ) : ℚ :=
  if q.num = 0 then 0
  else
    let e := max (ratLog2 q.num q.den) (-126)
    let s := 23 - e
    if 0 ≤ s then mkRat (roundHE (q.num * 2 ^ s.toNat) q.den) (2 ^ s.toNat)
    else mkRat (roundHE q.num (q.den * 2 ^ (-s).toNat) * 2 ^ (-s).toNat) 1

/-- Exact rational multiplication in kernel-computable form. -/
def ratMul (a b : ℚ) : ℚ := mkRat (a.num * b.num) (a.den * b.den)

/-- Exact rational addition in kernel-computable form. -/
def ratAdd (a b : ℚ) : ℚ := mkRat (a.num * b.den + b.num * a.den) (a.den * b.den)

/-- Exact rational inverse in kernel-computable form (`ratInv 0 = 0`,
matching `ℚ`). -/
def ratInv (a : ℚ) : ℚ :=
  if 0 ≤ a.num then mkRat a.den a.num.toNat
  else mkRat (-(a.den : ℤ)) (-a.num).toNat

/-- Exact rational division in kernel-computable form. -/
def ratDiv (a b : ℚ) : ℚ := ratMul a (ratInv b)

theorem ratMul_eq (a b : ℚ) : ratMul a b = a * b := by
  rw [ratMul, Rat.mkRat_eq_divInt]
  push_cast
  rw [← Rat.divInt_mul_divInt', Rat.num_divInt_den, Rat.num_divInt_den]

theorem ratAdd_eq (a b : ℚ) : ratAdd a b = a + b := by
  rw [ratAdd, Rat.mkRat_eq_divInt]
  push_cast
  rw [← Rat.divInt_add_divInt _ _ (by exact_mod_cast a.den_ne_zero)
      (by exact_mod_cast b.den_ne_zero),
    Rat.num_divInt_den, Rat.num_divInt_den]

theorem ratInv_eq (a : ℚ) : ratInv a = a⁻¹ := by
  rw [ratInv, Rat.inv_def']
  by_cases h : 0 ≤ a.num
  · rw [if_pos h, Rat.mkRat_eq_divInt, Int.toNat_of_nonneg h]
  · rw [if_neg h, Rat.mkRat_eq_divInt, Int.toNat_of_nonneg (by omega),
      Rat.divInt_neg, Int.neg_neg]

theorem ratDiv_eq (a b : ℚ) : ratDiv a b = a / b := by
  rw [ratDiv, ratMul_eq, ratInv_eq, div_eq_mul_inv]

/-- Rust saturating `f32 → u8` cast (`as u8`): truncate toward zero and
clamp to `[0, 255]`.  Truncation toward zero of a nonnegative value is the
floor; for a negative value `Int.toNat` yields the saturated `0`. -/
def f32AsU8 (q : ℚ) : ℕ := min 255 (Int.toNat (Int.floor q))

/-! ## Color (source lines 139-294)

`Color` is four `f32` channels in sRGB space.  `From<(u8,u8,u8,u8)>`
computes `f32::from(byte) / 255.0` per channel (exact byte-to-float
conversion, then one rounded division); `From<Color> for (u8,u8,u8,u8)`
computes `(channel * 255.0) as u8` (one rounded product, then the
truncating saturating cast). -/

structure Color where
  r : ℚ
  g : ℚ
  b : ℚ
  a : ℚ
  deriving DecidableEq

/-- Source `impl From<(u8, u8, u8, u8)> for Color` and `Color::from_rgba`. -/
def Color.from_rgba (r g b a : ℕ) : Color :=
  ⟨fl32 (ratDiv (r : ℚ) 255), fl32 (ratDiv (g : ℚ) 255),
    fl32 (ratDiv (b : ℚ) 255), fl32 (ratDiv (a : ℚ) 255)⟩

/-- Source `impl From<(u8, u8, u8)> for Color` and `Color::from_rgb`:
alpha fixed to 255. -/
def Color.from_rgb (r g b : ℕ) : Color := Color.from_rgba r g b 255

/-- Source `impl From<Color> for (u8, u8, u8, u8)` and `Color::to_rgba`. -/
def Color.to_rgba (c : Color) : ℕ × ℕ × ℕ × ℕ :=
  (f32AsU8 (fl32 (ratMul c.r 255)), f32AsU8 (fl32 (ratMul c.g 255)),
    f32AsU8 (fl32 (ratMul c.b 255)), f32AsU8 (fl32 (ratMul c.a 255)))

/-- Source `impl From<Color> for (u8, u8, u8)` and `Color::to_rgb`:
convert to the four-byte tuple and drop the alpha byte. -/
def Color.to_rgb (c : Color) : ℕ × ℕ × ℕ :=
  (c.to_rgba.1, c.to_rgba.2.1, c.to_rgba.2.2.1)

/-- Source `Color::from_rgba_u32`: shift-and-mask extraction of the four
bytes of `0xRRGGBBAA` (the trailing `% 256` is the `as u8` cast). -/
def Color.from_rgba_u32 (c : ℕ) : Color :=
  Color.from_rgba (((c &&& 0xFF000000) >>> 24) % 256)
    (((c &&& 0x00FF0000) >>> 16) % 256)
    (((c &&& 0x0000FF00) >>> 8) % 256)
    ((c &&& 0x000000FF) % 256)

/-- Source `Color::from_rgb_u32`: extraction of the three bytes of
`0x00RRGGBB`, alpha forced opaque via `Color::from_rgb`. -/
def Color.from_rgb_u32 (c : ℕ) : Color :=
  Color.from_rgb (((c &&& 0x00FF0000) >>> 16) % 256)
    (((c &&& 0x0000FF00) >>> 8) % 256)
    ((c &&& 0x000000FF) % 256)

/-- Source `Color::to_rgba_u32`: convert to bytes, then pack by
shift-and-or.  Every byte is `< 256`, so no `u32` wraparound occurs and no
`% 2 ^ 32` is needed. -/
def Color.to_rgba_u32 (c : Color) : ℕ :=
  let t := c.to_rgba
  (t.1 <<< 24) ||| (t.2.1 <<< 16) ||| (t.2.2.1 <<< 8) ||| t.2.2.2

/-- Source `Color::to_rgb_u32`: convert to bytes, drop alpha, pack. -/
def Color.to_rgb_u32 (c : Color) : ℕ :=
  let t := c.to_rgba
  (t.1 <<< 16) ||| (t.2.1 <<< 8) ||| t.2.2.1

/-! ## Spec-side definitions used by the refinement claims -/

/-- Spec §4.2 float-to-byte rule as written: the truncating integer cast of
`float_channel * 255.0` (claim C2). -/
def truncatedByte (q : ℚ) : ℕ := Int.toNat (Int.floor (fl32 (ratMul q 255)))

/-- Round-to-nearest alternative that the spec explicitly rules out
(claim C2). -/
def roundedByte (q : ℚ) : ℕ :=
  Int.toNat (roundHE (fl32 (ratMul q 255)).num (fl32 (ratMul q 255)).den)

/-- Spec §4.2 description of `from_rgba_u32`: R from bits 24-31, G from
16-23, B from 8-15, A from 0-7, each through the byte-to-float rule
(claim C4). -/
def fromRgbaU32Bits (c : ℕ) : Color :=
  Color.from_rgba (c / 2 ^ 24 % 2 ^ 8) (c / 2 ^ 16 % 2 ^ 8)
    (c / 2 ^ 8 % 2 ^ 8) (c % 2 ^ 8)

/-- Spec §4.2 description of `from_rgb_u32`: R from bits 16-23, G from
8-15, B from 0-7, alpha forced opaque (claim C4). -/
def fromRgbU32Bits (c : ℕ) : Color :=
  Color.from_rgba (c / 2 ^ 16 % 2 ^ 8) (c / 2 ^ 8 % 2 ^ 8) (c % 2 ^ 8) 255

/-! ## Helper lemmas -/

set_option maxRecDepth 4000 in
/-- Channel-level byte round-trip, checked over all 256 byte values: one
rounded division by 255 followed by one rounded product with 255 truncates
back to the original byte. -/
theorem byte_channel_roundtrip : ∀ v : ℕ, v < 256 →
    f32AsU8 (fl32 (ratMul (fl32 (ratDiv (v : ℚ) 255)) 255)) = v := by decide

/-- Claim C1: for every byte tuple `(r, g, b, a)` in `[0, 255]^4`,
converting to a `Color` by the byte-to-float rule and back with `to_rgba`
returns exactly the original tuple. -/
theorem color_byte_roundtrip (r g b a : ℕ) (hr : r ≤ 255) (hg : g ≤ 255)
    (hb : b ≤ 255) (ha : a ≤ 255) :
    (Color.from_rgba r g b a).to_rgba = (r, g, b, a) := by
  have h1 := byte_channel_roundtrip r (by omega)
  have h2 := byte_channel_roundtrip g (by omega)
  have h3 := byte_channel_roundtrip b (by omega)
  have h4 := byte_channel_roundtrip a (by omega)
  simp only [Color.from_rgba, Color.to_rgba, Prod.mk.injEq]
  exact ⟨h1, h2, h3, h4⟩

/-- Concrete instance of claim C1. -/
theorem color_byte_roundtrip_witness :
    (Color.from_rgba 12 99 200 255).to_rgba = (12, 99, 200, 255) :=
  color_byte_roundtrip 12 99 200 255 (by decide) (by decide) (by decide)
    (by decide)

/-- Saturation in `f32AsU8` is invisible below 256, leaving the plain
truncating cast. -/
theorem f32AsU8_eq_floor {q : ℚ} (h : q < 256) :
    f32AsU8 q = Int.toNat (Int.floor q) := by
  have h2 : Int.floor q < 256 := Int.floor_lt.mpr (by exact_mod_cast h)
  unfold f32AsU8
  omega

/-- Claim C2: the float-to-byte conversion computes each output byte as the
truncating cast of `channel * 255.0` (floor after the one rounded product),
not a round-to-nearest conversion: at channel value `fl32 0.999` the code
yields byte 254 where rounding to nearest would yield 255. -/
theorem color_to_bytes_truncates :
    (∀ c : Color,
      fl32 (ratMul c.r 255) < 256 → fl32 (ratMul c.g 255) < 256 →
      fl32 (ratMul c.b 255) < 256 → fl32 (ratMul c.a 255) < 256 →
      c.to_rgba = (truncatedByte c.r, truncatedByte c.g, truncatedByte c.b,
        truncatedByte c.a)) ∧
    (Color.mk (fl32 (mkRat 999 1000)) (fl32 (mkRat 999 1000))
        (fl32 (mkRat 999 1000)) (fl32 (mkRat 999 1000))).to_rgba =
      (254, 254, 254, 254) ∧
    roundedByte (fl32 (mkRat 999 1000)) = 255 := by
  refine ⟨?_, by decide, by decide⟩
  intro c h1 h2 h3 h4
  simp only [Color.to_rgba, truncatedByte, Prod.mk.injEq]
  exact ⟨f32AsU8_eq_floor h1, f32AsU8_eq_floor h2, f32AsU8_eq_floor h3,
    f32AsU8_eq_floor h4⟩

/-- Concrete instance of claim C2. -/
theorem color_to_bytes_truncates_witness :
    (Color.mk (mkRat 1 2) (mkRat 1 2) (mkRat 1 2) 1).to_rgba =
      (truncatedByte (mkRat 1 2), truncatedByte (mkRat 1 2),
        truncatedByte (mkRat 1 2), truncatedByte 1) :=
  color_to_bytes_truncates.1 ⟨mkRat 1 2, mkRat 1 2, mkRat 1 2, 1⟩
    (by decide) (by decide) (by decide) (by decide)

/-- Bits at position 8 and above of a byte value are clear. -/
theorem testBit_byte_high {v j : ℕ} (hv : v < 256) (hj : 8 ≤ j) :
    Nat.testBit v j = false :=
  Nat.testBit_lt_two_pow (lt_of_lt_of_le hv (by
    calc (256 : ℕ) = 2 ^ 8 := by norm_num
    _ ≤ 2 ^ j := Nat.pow_le_pow_right (by norm_num) hj))

/-- Masking with a byte mask at offset `k`, shifting down and taking the low
byte is the same as extracting bits `k` to `k + 7`. -/
theorem mask_shift_extract (c k : ℕ) :
    ((c &&& ((2 ^ 8 - 1) <<< k)) >>> k) % 256 = c / 2 ^ k % 256 := by
  have h256 : (256 : ℕ) = 2 ^ 8 := by norm_num
  rw [h256, ← Nat.shiftRight_eq_div_pow]
  apply Nat.eq_of_testBit_eq
  intro i
  simp only [Nat.testBit_mod_two_pow, Nat.testBit_shiftRight, Nat.testBit_and,
    Nat.testBit_shiftLeft, Nat.testBit_two_pow_sub_one, ge_iff_le]
  by_cases h8 : i < 8
  · have hk : k ≤ k + i := Nat.le_add_right k i
    have he : k + i - k = i := by omega
    simp [hk, he, h8]
  · simp [h8]

theorem and24_extract (c : ℕ) :
    ((c &&& 0xFF000000) >>> 24) % 256 = c / 2 ^ 24 % 256 := by
  have h : (0xFF000000 : ℕ) = (2 ^ 8 - 1) <<< 24 := by decide
  rw [h, mask_shift_extract]

theorem and16_extract (c : ℕ) :
    ((c &&& 0x00FF0000) >>> 16) % 256 = c / 2 ^ 16 % 256 := by
  have h : (0x00FF0000 : ℕ) = (2 ^ 8 - 1) <<< 16 := by decide
  rw [h, mask_shift_extract]

theorem and8_extract (c : ℕ) :
    ((c &&& 0x0000FF00) >>> 8) % 256 = c / 2 ^ 8 % 256 := by
  have h : (0x0000FF00 : ℕ) = (2 ^ 8 - 1) <<< 8 := by decide
  rw [h, mask_shift_extract]

theorem and0_extract (c : ℕ) : (c &&& 0x000000FF) % 256 = c % 256 := by
  have h : (0x000000FF : ℕ) = (2 ^ 8 - 1) <<< 0 := by decide
  have h0 : (c &&& ((2 ^ 8 - 1) <<< 0)) >>> 0 = c &&& ((2 ^ 8 - 1) <<< 0) :=
    Nat.shiftRight_zero
  rw [h, ← h0, mask_shift_extract, pow_zero, Nat.div_one]

/-- Byte 3 (bits 24-31) of a packed `0xRRGGBBAA` word. -/
theorem pack_div24 (r g b a : ℕ) (hr : r < 256) (hg : g < 256) (hb : b < 256)
    (ha : a < 256) :
    (r <<< 24 ||| g <<< 16 ||| b <<< 8 ||| a) / 2 ^ 24 % 256 = r := by
  rw [← Nat.shiftRight_eq_div_pow, show (256 : ℕ) = 2 ^ 8 by norm_num]
  apply Nat.eq_of_testBit_eq
  intro i
  have hgf : Nat.testBit g (24 + i - 16) = false := testBit_byte_high hg (by omega)
  have hbf : Nat.testBit b (24 + i - 8) = false := testBit_byte_high hb (by omega)
  have haf : Nat.testBit a (24 + i) = false := testBit_byte_high ha (by omega)
  simp only [Nat.testBit_mod_two_pow, Nat.testBit_shiftRight, Nat.testBit_or,
    Nat.testBit_shiftLeft, ge_iff_le, hgf, hbf, haf, Bool.and_false,
    Bool.or_false, Bool.false_or]
  have he : 24 + i - 24 = i := by omega
  have hk : 24 ≤ 24 + i := by omega
  by_cases h8 : i < 8
  · simp [he, hk, h8]
  · simp [h8, testBit_byte_high hr (show 8 ≤ i by omega)]

/-- Byte 2 (bits 16-23) of a packed `0xRRGGBBAA` word. -/
theorem pack_div16 (r g b a : ℕ) (hr : r < 256) (hg : g < 256) (hb : b < 256)
    (ha : a < 256) :
    (r <<< 24 ||| g <<< 16 ||| b <<< 8 ||| a) / 2 ^ 16 % 256 = g := by
  rw [← Nat.shiftRight_eq_div_pow, show (256 : ℕ) = 2 ^ 8 by norm_num]
  apply Nat.eq_of_testBit_eq
  intro i
  have hbf : Nat.testBit b (16 + i - 8) = false := testBit_byte_high hb (by omega)
  have haf : Nat.testBit a (16 + i) = false := testBit_byte_high ha (by omega)
  simp only [Nat.testBit_mod_two_pow, Nat.testBit_shiftRight, Nat.testBit_or,
    Nat.testBit_shiftLeft, ge_iff_le, hbf, haf, Bool.and_false,
    Bool.or_false, Bool.false_or]
  have he : 16 + i - 16 = i := by omega
  have hk : 16 ≤ 16 + i := by omega
  by_cases h8 : i < 8
  · have hr24 : ¬ 24 ≤ 16 + i := by omega
    simp [he, hk, h8, hr24]
  · simp [h8, testBit_byte_high hg (show 8 ≤ i by omega)]

/-- Byte 1 (bits 8-15) of a packed `0xRRGGBBAA` word. -/
theorem pack_div8 (r g b a : ℕ) (hr : r < 256) (hg : g < 256) (hb : b < 256)
    (ha : a < 256) :
    (r <<< 24 ||| g <<< 16 ||| b <<< 8 ||| a) / 2 ^ 8 % 256 = b := by
  rw [← Nat.shiftRight_eq_div_pow, show (256 : ℕ) = 2 ^ 8 by norm_num]
  apply Nat.eq_of_testBit_eq
  intro i
  have haf : Nat.testBit a (8 + i) = false := testBit_byte_high ha (by omega)
  simp only [Nat.testBit_mod_two_pow, Nat.testBit_shiftRight, Nat.testBit_or,
    Nat.testBit_shiftLeft, ge_iff_le, haf, Bool.and_false,
    Bool.or_false, Bool.false_or]
  have he : 8 + i - 8 = i := by omega
  have hk : 8 ≤ 8 + i := by omega
  by_cases h8 : i < 8
  · have hr24 : ¬ 24 ≤ 8 + i := by omega
    have hg16 : ¬ 16 ≤ 8 + i := by omega
    simp [he, hk, h8, hr24, hg16]
  · simp [h8, testBit_byte_high hb (show 8 ≤ i by omega)]

/-- Byte 0 (bits 0-7) of a packed `0xRRGGBBAA` word. -/
theorem pack_mod (r g b a : ℕ) (hr : r < 256) (hg : g < 256) (hb : b < 256)
    (ha : a < 256) :
    (r <<< 24 ||| g <<< 16 ||| b <<< 8 ||| a) % 256 = a := by
  rw [show (256 : ℕ) = 2 ^ 8 by norm_num]
  apply Nat.eq_of_testBit_eq
  intro i
  simp only [Nat.testBit_mod_two_pow, Nat.testBit_or, Nat.testBit_shiftLeft,
    ge_iff_le]
  by_cases h8 : i < 8
  · have hr24 : ¬ 24 ≤ i := by omega
    have hg16 : ¬ 16 ≤ i := by omega
    have hb8 : ¬ 8 ≤ i := by omega
    simp [h8, hr24, hg16, hb8]
  · simp [h8, testBit_byte_high ha (show 8 ≤ i by omega)]

/-- Unpacking a packed word made of four bytes recovers the bytes. -/
theorem unpack_pack (r g b a : ℕ) (hr : r < 256) (hg : g < 256) (hb : b < 256)
    (ha : a < 256) :
    Color.from_rgba_u32 (r <<< 24 ||| g <<< 16 ||| b <<< 8 ||| a) =
      Color.from_rgba r g b a := by
  rw [Color.from_rgba_u32, and24_extract, and16_extract, and8_extract,
    and0_extract, pack_div24 r g b a hr hg hb ha, pack_div16 r g b a hr hg hb ha,
    pack_div8 r g b a hr hg hb ha, pack_mod r g b a hr hg hb ha]

/-- Claim C3: for every byte-exact color (one constructed from a byte tuple
by the byte-to-float rule), packing with `to_rgba_u32` and unpacking with
`from_rgba_u32` returns the same color. -/
theorem packed_u32_roundtrip (r g b a : ℕ) (hr : r ≤ 255) (hg : g ≤ 255)
    (hb : b ≤ 255) (ha : a ≤ 255) :
    Color.from_rgba_u32 (Color.to_rgba_u32 (Color.from_rgba r g b a)) =
      Color.from_rgba r g b a := by
  have h1 := byte_channel_roundtrip r (by omega)
  have h2 := byte_channel_roundtrip g (by omega)
  have h3 := byte_channel_roundtrip b (by omega)
  have h4 := byte_channel_roundtrip a (by omega)
  have hpack : Color.to_rgba_u32 (Color.from_rgba r g b a) =
      (r <<< 24 ||| g <<< 16 ||| b <<< 8 ||| a) := by
    simp only [Color.to_rgba_u32, Color.to_rgba, Color.from_rgba]
    rw [h1, h2, h3, h4]
  rw [hpack, unpack_pack r g b a (by omega) (by omega) (by omega) (by omega)]

/-- Concrete instance of claim C3. -/
theorem packed_u32_roundtrip_witness :
    Color.from_rgba_u32 (Color.to_rgba_u32 (Color.from_rgba 204 136 153 7)) =
      Color.from_rgba 204 136 153 7 :=
  packed_u32_roundtrip 204 136 153 7 (by decide) (by decide) (by decide)
    (by decide)

/-- Claim C4: `from_rgba_u32` reads R from bits 24-31, G from 16-23, B from
8-15 and A from 0-7 and feeds each byte through the byte-to-float rule;
`from_rgb_u32` reads R from bits 16-23, G from 8-15, B from 0-7 with alpha
forced opaque; hence `from_rgb_u32 0xCC8899`, `from_rgba_u32 0xCC8899FF`
and the color built from the byte tuple `(0xCC, 0x88, 0x99, 255)`
coincide. -/
theorem from_u32_bit_layout :
    (∀ c : ℕ, Color.from_rgba_u32 c = fromRgbaU32Bits c) ∧
    (∀ c : ℕ, Color.from_rgb_u32 c = fromRgbU32Bits c) ∧
    Color.from_rgb_u32 0xCC8899 = Color.from_rgba_u32 0xCC8899FF ∧
    Color.from_rgb_u32 0xCC8899 = Color.from_rgba 0xCC 0x88 0x99 255 := by
  refine ⟨?_, ?_, by decide, by decide⟩
  · intro c
    rw [Color.from_rgba_u32, fromRgbaU32Bits, and24_extract, and16_extract,
      and8_extract, and0_extract]
    norm_num
  · intro c
    rw [Color.from_rgb_u32, Color.from_rgb, fromRgbU32Bits, and16_extract,
      and8_extract, and0_extract]
    norm_num

/-! ## LinearColor (source lines 296-348)

The sRGB-to-linear transfer function and its (buggy) inverse.  `powf` is
an uninterpreted parameter `pow`; the remaining arithmetic is exact
rational arithmetic (the claims it supports are structural, or robust to
`f32` rounding by a wide margin). -/

structure LinearColor where
  r : ℚ
  g : ℚ
  b : ℚ
  a : ℚ
  deriving DecidableEq

/-- Source `impl From<Color> for LinearColor`, inner `fn f`: the IEC
61966-2-1 reverse transform with `a = 0.055`. -/
def srgbChannelToLinear (pow : ℚ → ℚ → ℚ) (component : ℚ) : ℚ :=
  let a : ℚ := 0.055
  if component ≤ 0.04045 then component / 12.92
  else pow ((component + a) / (1 + a)) 2.4

/-- Source `impl From<Color> for LinearColor`: transform r, g, b; copy
alpha unchanged. -/
def LinearColor.fromColor (pow : ℚ → ℚ → ℚ) (c : Color) : LinearColor :=
  ⟨srgbChannelToLinear pow c.r, srgbChannelToLinear pow c.g,
    srgbChannelToLinear pow c.b, c.a⟩

/-- Source `impl From<LinearColor> for Color`, inner `fn f`.  Note the
`else` branch is `(1.0 + a) * component.powf(1.0 / 2.4)` with no `- a`
term. -/
def linearChannelToSrgb (pow : ℚ → ℚ → ℚ) (component : ℚ) : ℚ :=
  let a : ℚ := 0.055
  if component ≤ 0.0031308 then component * 12.92
  else (1 + a) * pow component (1 / 2.4)

/-- Source `impl From<LinearColor> for Color`: transform r, g, b; copy
alpha unchanged. -/
def Color.fromLinear (pow : ℚ → ℚ → ℚ) (c : LinearColor) : Color :=
  ⟨linearChannelToSrgb pow c.r, linearChannelToSrgb pow c.g,
    linearChannelToSrgb pow c.b, c.a⟩

/-- Spec §4.2 sRGB decoding formula as written: `c/12.92` below the
breakpoint, else `((c+0.055)/1.055)^2.4` (claim C5). -/
def srgbDecodeSpec (pow : ℚ → ℚ → ℚ) (c : ℚ) : ℚ :=
  if c ≤ 0.04045 then c / 12.92 else pow ((c + 0.055) / 1.055) 2.4

/-- Spec §4.2 linear-to-sRGB formula as written: `c*12.92` below the
breakpoint, else `1.055 * c^(1/2.4)` (claim C5; this transcribes the
source's formula, which omits the standard `- 0.055` term). -/
def srgbEncodeSpec (pow : ℚ → ℚ → ℚ) (c : ℚ) : ℚ :=
  if c ≤ 0.0031308 then c * 12.92 else 1.055 * pow c (1 / 2.4)

theorem srgbChannelToLinear_eq (pow : ℚ → ℚ → ℚ) (x : ℚ) :
    srgbChannelToLinear pow x = srgbDecodeSpec pow x := by
  simp only [srgbChannelToLinear, srgbDecodeSpec]
  norm_num

theorem linearChannelToSrgb_eq (pow : ℚ → ℚ → ℚ) (x : ℚ) :
    linearChannelToSrgb pow x = srgbEncodeSpec pow x := by
  simp only [linearChannelToSrgb, srgbEncodeSpec]
  norm_num

/-- Claim C5: the Color-to-LinearColor conversion applies the piecewise
sRGB decoding function (threshold 0.04045, divisor 12.92, exponent 2.4) to
each of r, g, b, and the LinearColor-to-Color conversion applies the
piecewise function with threshold 0.0031308, factor 12.92 and
`1.055 * c^(1/2.4)`; both copy alpha unchanged. -/
theorem srgb_transfer_functions :
    (∀ (pow : ℚ → ℚ → ℚ) (c : Color),
      LinearColor.fromColor pow c =
        LinearColor.mk (srgbDecodeSpec pow c.r) (srgbDecodeSpec pow c.g)
          (srgbDecodeSpec pow c.b) c.a) ∧
    (∀ (pow : ℚ → ℚ → ℚ) (l : LinearColor),
      Color.fromLinear pow l =
        Color.mk (srgbEncodeSpec pow l.r) (srgbEncodeSpec pow l.g)
          (srgbEncodeSpec pow l.b) l.a) := by
  constructor
  · intro pow c
    rw [LinearColor.fromColor, srgbChannelToLinear_eq, srgbChannelToLinear_eq,
      srgbChannelToLinear_eq]
  · intro pow l
    rw [Color.fromLinear, linearChannelToSrgb_eq, linearChannelToSrgb_eq,
      linearChannelToSrgb_eq]

/-- Claim C6 fails on the code: for any `powf` with `powf(1, y) = 1` (true
of every real implementation), round-tripping opaque white
`Color::new(1,1,1,1)` through `LinearColor` and back yields an r channel of
exactly 1.055, which misses the original 1.0 by far more than the claimed
1e-5 tolerance.  The cause is the missing `- a` term in
`From<LinearColor> for Color`. -/
theorem linear_roundtrip_code_bug (pow : ℚ → ℚ → ℚ)
    (hpow1 : pow 1 2.4 = 1) (hpow2 : pow 1 (1 / 2.4) = 1) :
    (Color.fromLinear pow (LinearColor.fromColor pow
      (Color.mk 1 1 1 1))).r = 1.055 ∧
    ¬ |(Color.fromLinear pow (LinearColor.fromColor pow
      (Color.mk 1 1 1 1))).r - 1| ≤ 1 / 100000 := by
  have key : (LinearColor.fromColor pow (Color.mk 1 1 1 1)).r = 1 := by
    simp only [LinearColor.fromColor, srgbChannelToLinear]
    norm_num
    convert hpow1 using 2
    norm_num
  have key2 : (Color.fromLinear pow (LinearColor.fromColor pow
      (Color.mk 1 1 1 1))).r = 1.055 := by
    simp only [Color.fromLinear, linearChannelToSrgb, key]
    norm_num
    convert hpow2 using 2
    norm_num
  refine ⟨key2, ?_⟩
  rw [key2]
  intro habs
  norm_num [abs_le] at habs

/-- Concrete instance of the failing round-trip with `powf` instantiated at
the constant-one function (which satisfies both hypotheses). -/
theorem linear_roundtrip_code_bug_witness :
    (Color.fromLinear (fun _ _ => 1) (LinearColor.fromColor (fun _ _ => 1)
      (Color.mk 1 1 1 1))).r = 1.055 ∧
    ¬ |(Color.fromLinear (fun _ _ => 1) (LinearColor.fromColor (fun _ _ => 1)
      (Color.mk 1 1 1 1))).r - 1| ≤ 1 / 100000 :=
  linear_roundtrip_code_bug (fun _ _ => 1) rfl rfl

/-! ## Rect geometry (source lines 12-137)

Fields are `f32` values; `right()` and `bottom()` each perform one `f32`
addition, `fraction` performs four `f32` divisions.  A zero-sized
`fraction` reference (infinity/NaN in `f32`) is outside the model, as in
the spec, which leaves it undefined. -/

structure Point2 where
  x : ℚ
  y : ℚ
  deriving DecidableEq

structure Rect where
  x : ℚ
  y : ℚ
  w : ℚ
  h : ℚ
  deriving DecidableEq

/-- Source `Rect::new`. -/
def Rect.new (x y w h : ℚ) : Rect := ⟨x, y, w, h⟩

/-- Source `Rect::left`. -/
def Rect.left (r : Rect) : ℚ := r.x

/-- Source `Rect::right`: one `f32` addition. -/
def Rect.right (r : Rect) : ℚ := fl32 (ratAdd r.x r.w)

/-- Source `Rect::top`. -/
def Rect.top (r : Rect) : ℚ := r.y

/-- Source `Rect::bottom`: one `f32` addition. -/
def Rect.bottom (r : Rect) : ℚ := fl32 (ratAdd r.y r.h)

/-- Source `Rect::contains`, with the source's conjunct order. -/
def Rect.contains (r : Rect) (point : Point2) : Bool :=
  decide (point.x ≥ r.left) && decide (point.x ≤ r.right) &&
    decide (point.y ≤ r.bottom) && decide (point.y ≥ r.top)

/-- Source `Rect::overlaps`. -/
def Rect.overlaps (r : Rect) (other : Rect) : Bool :=
  decide (r.left ≤ other.right) && decide (r.right ≥ other.left) &&
    decide (r.top ≤ other.bottom) && decide (r.bottom ≥ other.top)

/-- Source `Rect::fraction`: four `f32` divisions by the reference sizes
(note the `y` field divides by `reference.h`). -/
def Rect.fraction (x y w h : ℚ) (reference : Rect) : Rect :=
  ⟨fl32 (ratDiv x reference.w), fl32 (ratDiv y reference.h),
    fl32 (ratDiv w reference.w), fl32 (ratDiv h reference.h)⟩

/-- Propositional reading of `Rect.contains`. -/
theorem contains_iff (r : Rect) (p : Point2) :
    r.contains p = true ↔
      (r.left ≤ p.x ∧ p.x ≤ r.right ∧ r.top ≤ p.y ∧ p.y ≤ r.bottom) := by
  simp only [Rect.contains, Bool.and_eq_true, decide_eq_true_iff, ge_iff_le]
  tauto

/-- Propositional reading of `Rect.overlaps`. -/
theorem overlaps_iff (r s : Rect) :
    r.overlaps s = true ↔
      (r.left ≤ s.right ∧ s.left ≤ r.right ∧ r.top ≤ s.bottom ∧
        s.top ≤ r.bottom) := by
  simp only [Rect.overlaps, Bool.and_eq_true, decide_eq_true_iff, ge_iff_le]
  tauto

/-- Claim C7: `contains` is the boundary-inclusive box test
`left ≤ p.x ≤ right` and `top ≤ p.y ≤ bottom`; the 128-square contains
`(0,0)` and `(128,0)` but not `(129,0)`. -/
theorem rect_contains_boundary :
    (∀ (r : Rect) (p : Point2), r.contains p = true ↔
      (r.left ≤ p.x ∧ p.x ≤ r.right ∧ r.top ≤ p.y ∧ p.y ≤ r.bottom)) ∧
    (Rect.new 0 0 128 128).contains (Point2.mk 0 0) = true ∧
    (Rect.new 0 0 128 128).contains (Point2.mk 128 0) = true ∧
    (Rect.new 0 0 128 128).contains (Point2.mk 129 0) = false :=
  ⟨contains_iff, by decide, by decide, by decide⟩

/-- Claim C8: `overlaps` is the boundary-inclusive projection test; rects
sharing exactly one edge overlap, and rects separated by a positive gap on
either axis do not. -/
theorem rect_overlaps_boundary :
    (∀ r s : Rect, r.overlaps s = true ↔
      (r.left ≤ s.right ∧ r.right ≥ s.left ∧ r.top ≤ s.bottom ∧
        r.bottom ≥ s.top)) ∧
    (Rect.new 0 0 10 10).overlaps (Rect.new 10 0 10 10) = true ∧
    (∀ r s : Rect,
      r.right < s.left ∨ s.right < r.left ∨ r.bottom < s.top ∨
        s.bottom < r.top →
      r.overlaps s = false) := by
  refine ⟨fun r s => overlaps_iff r s, by decide, ?_⟩
  intro r s hgap
  cases hov : r.overlaps s with
  | false => rfl
  | true =>
    obtain ⟨h1, h2, h3, h4⟩ := (overlaps_iff r s).mp hov
    rcases hgap with h | h | h | h <;> linarith

/-- Concrete instance of claim C8's separation property. -/
theorem rect_overlaps_boundary_witness :
    (Rect.new 0 0 10 10).overlaps (Rect.new 30 0 10 10) = false :=
  rect_overlaps_boundary.2.2 (Rect.new 0 0 10 10) (Rect.new 30 0 10 10)
    (Or.inl (by decide))

/-- Claim C9: `fraction` returns the rect with fields `x/reference.w`,
`y/reference.h`, `w/reference.w`, `h/reference.h` (each one `f32`
division); in particular the 32-square of the 128-square is the
quarter-square, whose fields are `0.25`. -/
theorem rect_fraction_fields :
    (∀ (x y w h : ℚ) (reference : Rect),
      Rect.fraction x y w h reference =
        Rect.mk (fl32 (x / reference.w)) (fl32 (y / reference.h))
          (fl32 (w / reference.w)) (fl32 (h / reference.h))) ∧
    Rect.fraction 0 0 32 32 (Rect.new 0 0 128 128) =
      Rect.new 0 0 (mkRat 1 4) (mkRat 1 4) ∧
    (mkRat 1 4 : ℚ) = 0.25 := by
  refine ⟨?_, by decide, by norm_num [Rat.mkRat_eq_divInt, Rat.divInt_eq_div]⟩
  intro x y w h reference
  rw [Rect.fraction, ratDiv_eq, ratDiv_eq, ratDiv_eq, ratDiv_eq]

/-- Claim C10: `overlaps` is symmetric. -/
theorem rect_overlaps_symmetric (r s : Rect) :
    r.overlaps s = s.overlaps r := by
  rw [Bool.eq_iff_iff, overlaps_iff, overlaps_iff]
  tauto

/-- Concrete instance of claim C7's box test. -/
theorem rect_contains_boundary_witness :
    (Rect.new 0 0 2 2).contains (Point2.mk 1 1) = true :=
  (rect_contains_boundary.1 (Rect.new 0 0 2 2) (Point2.mk 1 1)).mpr
    (by refine ⟨by norm_num [Rect.new, Rect.left], ?_, ?_, ?_⟩ <;> decide)
